import Mathlib

/-!
Verification of the self-avoiding-billiards trajectory engine
(src/src/main.rs) against its design specification.

The engine is embedded shallowly over exact rational arithmetic:

* `f64` values are modelled as `ℚ`.  The source's floating-point square
  root (used by `geo`'s `euclidean_distance` and `try_normalize`) is
  modelled by `ratSqrt`, a computable rational square root that is exact
  on perfect squares (every concrete evaluation below involves perfect
  squares only).  None of the control-flow properties proved here depend
  on the value of the square root beyond `ratSqrt q = 0 ↔ q = 0` for
  `0 ≤ q` (lemma `ratSqrt_eq_zero_iff`), which the real square root also
  satisfies.
* `geo::Coord` and `geo::Line` become `Coord` and `Line` (the `end`
  field is renamed `endp`; `end` is reserved in Lean).
* `heapless::Vec<Line, 100>` becomes a `List Line` together with the
  explicit capacity check `SCENE_CAP = 100`: `push` fails exactly when
  the length has reached the capacity, `is_full` is `SCENE_CAP ≤ length`
  (equivalent to `len == capacity` under the representation invariant
  `len ≤ capacity` that the Rust type maintains).
* `simple_canvas::Canvas<T>` is specialised to scalar cells `ℚ` (the
  program instantiates `T = f64`): a width, a height and a row-major
  `List ℚ` of cells.
* The two random draws of `single_simulation` (launch point and launch
  angle) are inputs of the embedded function: `startPos` models the
  point drawn at line 120 and `u` models `angled_coord(angle)` drawn at
  line 122 (the source multiplies it by `10.0`, as does the embedding).
* The `while true` loop of `single_simulation` is embedded as the
  fuel-indexed `simLoopF`; `none` means the fuel ran out, and the fuel
  `SIM_FUEL` derived from the capacity is proved sufficient (claim C4).
  Both `.unwrap()` calls inside the loop are modelled as the explicit
  fault results `SimFault.pushFailed` and `SimFault.moveFailed`.

The Batteries arithmetic on `ℚ` is marked irreducible for elaboration
performance; concrete runs of the embedded engine are evaluated by
`decide`, so the default reducibility is restored for it right before
the concrete evaluations (after the generic lemmas, where the default
irreducibility keeps elaboration fast).
-/

namespace Billiards

/-- Fuel-indexed integer square root (Newton-free dyadic form): the usual
`isqrt (4m + r) = 2 isqrt m` adjusted by one.  Structural in the fuel so
the kernel can evaluate it; `isqrt` supplies fuel `n + 1`, which is
always enough since the recursion divides the argument by four. -/
def isqrtAux : ℕ → ℕ → ℕ
  | 0, _ => 0
  | f + 1, n =>
    if n < 2 then n
    else
      let r := 2 * isqrtAux f (n / 4)
      if (r + 1) * (r + 1) ≤ n then r + 1 else r

/-- Integer square root: largest `r` with `r * r ≤ n` (proved below for
the uses we need; exact on perfect squares). -/
def isqrt (n : ℕ) : ℕ := isqrtAux (n + 1) n

/-- Model of `f64::sqrt` on the exact rationals, mirroring
`Rat.sqrt` (square root of numerator over square root of denominator)
but built on the kernel-computable `isqrt`.  Exact on rationals whose
reduced numerator and denominator are perfect squares — every concrete
geometric evaluation in this file is of that shape. -/
def ratSqrt (q : ℚ) : ℚ := mkRat (isqrt q.num.toNat) (isqrt q.den)

/-- A 2-D point / vector: model of `geo::Coord` with `f64` as `ℚ`. -/
structure Coord where
  x : ℚ
  y : ℚ
deriving DecidableEq, Repr

instance : Add Coord := ⟨fun a b => ⟨a.x + b.x, a.y + b.y⟩⟩

instance : Sub Coord := ⟨fun a b => ⟨a.x - b.x, a.y - b.y⟩⟩

instance : Zero Coord := ⟨⟨0, 0⟩⟩

/-- Scalar multiple `v * k` (`geo` vector-times-`f64`). -/
def Coord.scale (v : Coord) (k : ℚ) : Coord := ⟨v.x * k, v.y * k⟩

/-- `geo`'s `dot_product`. -/
def Coord.dot (a b : Coord) : ℚ := a.x * b.x + a.y * b.y

/-- Squared euclidean magnitude `x² + y²`. -/
def normSq (v : Coord) : ℚ := v.x * v.x + v.y * v.y

/-- `geo`'s `euclidean_distance` between two points:
the square root of the squared distance. -/
def ballDist (a b : Coord) : ℚ := ratSqrt (normSq (a - b))

/-- Model of `geo`'s `Vector2DOps::try_normalize`: divide by the
magnitude; the division is non-finite (and `None` is returned) exactly
when the magnitude is zero. -/
def tryNormalize (v : Coord) : Option Coord :=
  let m := ratSqrt (normSq v)
  if m = 0 then none else some ⟨v.x / m, v.y / m⟩

/-- A segment: model of `geo::Line` (`end` is renamed `endp`). -/
structure Line where
  start : Coord
  endp : Coord
deriving DecidableEq, Repr

/-- Result of `geo::line_intersection::line_intersection`. -/
inductive LineIntersection where
  | singlePoint (intersection : Coord) (isProper : Bool)
  | collinear (intersection : Line)
deriving DecidableEq, Repr

/-- Twice the signed area of the triangle `a b c`: the orientation test
used by `geo`'s robust kernel (`orient2d`); only its sign is consulted. -/
def orientVal (a b c : Coord) : ℚ :=
  (b.x - a.x) * (c.y - a.y) - (b.y - a.y) * (c.x - a.x)

/-- Envelope (bounding-box) test of a point against a segment's box,
used by the collinear branch of the intersection algorithm. -/
def envContainsPt (p q r : Coord) : Bool :=
  min p.x q.x ≤ r.x ∧ r.x ≤ max p.x q.x ∧ min p.y q.y ≤ r.y ∧ r.y ≤ max p.y q.y

/-- Envelope overlap of two segments' bounding boxes: the quick
rejection at the head of the intersection algorithm. -/
def envIntersects (p q : Line) : Bool :=
  min p.start.x p.endp.x ≤ max q.start.x q.endp.x ∧
  min q.start.x q.endp.x ≤ max p.start.x p.endp.x ∧
  min p.start.y p.endp.y ≤ max q.start.y q.endp.y ∧
  min q.start.y q.endp.y ≤ max p.start.y p.endp.y

/-- The collinear case of the intersection algorithm (JTS
`computeCollinearIntersection`, as ported by `geo`): overlap of a
positive length reports `collinear`, touching at a single point reports
that point as an improper single-point intersection. -/
def collinearIntersection (p q : Line) : Option LineIntersection :=
  let q1inP := envContainsPt p.start p.endp q.start
  let q2inP := envContainsPt p.start p.endp q.endp
  let p1inQ := envContainsPt q.start q.endp p.start
  let p2inQ := envContainsPt q.start q.endp p.endp
  if q1inP ∧ q2inP then some (.collinear ⟨q.start, q.endp⟩)
  else if p1inQ ∧ p2inQ then some (.collinear ⟨p.start, p.endp⟩)
  else if q1inP ∧ p1inQ then
    if q.start = p.start ∧ ¬q2inP ∧ ¬p2inQ then some (.singlePoint q.start false)
    else some (.collinear ⟨q.start, p.start⟩)
  else if q1inP ∧ p2inQ then
    if q.start = p.endp ∧ ¬q2inP ∧ ¬p1inQ then some (.singlePoint q.start false)
    else some (.collinear ⟨q.start, p.endp⟩)
  else if q2inP ∧ p1inQ then
    if q.endp = p.start ∧ ¬q1inP ∧ ¬p2inQ then some (.singlePoint q.endp false)
    else some (.collinear ⟨q.endp, p.start⟩)
  else if q2inP ∧ p2inQ then
    if q.endp = p.endp ∧ ¬q1inP ∧ ¬p1inQ then some (.singlePoint q.endp false)
    else some (.collinear ⟨q.endp, p.endp⟩)
  else none

/-- The intersection point of the (non-parallel) supporting lines of `p`
and `q`: the exact solution the proper branch of the robust intersector
computes (its floating-point bias tricks are identities over ℚ). -/
def properIntersection (p q : Line) : Coord :=
  let dpx := p.endp.x - p.start.x
  let dpy := p.endp.y - p.start.y
  let dqx := q.endp.x - q.start.x
  let dqy := q.endp.y - q.start.y
  let denom := dpy * dqx - dpx * dqy
  let t := ((p.start.x - q.start.x) * dqy - (p.start.y - q.start.y) * dqx) / denom
  ⟨p.start.x + t * dpx, p.start.y + t * dpy⟩

/-- Model of `geo::line_intersection::line_intersection` (the JTS robust
line intersector over exact rationals): envelope quick rejection, the
four orientation tests, then the collinear / improper / proper cases. -/
def lineIntersection (p q : Line) : Option LineIntersection :=
  if ¬envIntersects p q then none
  else
    let pq1 := orientVal p.start p.endp q.start
    let pq2 := orientVal p.start p.endp q.endp
    if (0 < pq1 ∧ 0 < pq2) ∨ (pq1 < 0 ∧ pq2 < 0) then none
    else
      let qp1 := orientVal q.start q.endp p.start
      let qp2 := orientVal q.start q.endp p.endp
      if (0 < qp1 ∧ 0 < qp2) ∨ (qp1 < 0 ∧ qp2 < 0) then none
      else
        if pq1 = 0 ∧ pq2 = 0 ∧ qp1 = 0 ∧ qp2 = 0 then
          collinearIntersection p q
        else if pq1 = 0 ∨ pq2 = 0 ∨ qp1 = 0 ∨ qp2 = 0 then
          let pt :=
            if p.start = q.start ∨ p.start = q.endp then p.start
            else if p.endp = q.start ∨ p.endp = q.endp then p.endp
            else if pq1 = 0 then q.start
            else if pq2 = 0 then q.endp
            else if qp1 = 0 then p.start
            else p.endp
          some (.singlePoint pt false)
        else some (.singlePoint (properIntersection p q) true)

/-- The hit a single obstacle `l` yields for the ray `ball` (the body of
the scan in `test_ball_with_scene`, lines 62-76): the obstacle, the
single intersection point when there is one, and the euclidean distance
of that point from the ray's start. -/
def hitOf (ball l : Line) : Option (Line × Coord × ℚ) :=
  match lineIntersection l ball with
  | some (.singlePoint pt _) => some (l, pt, ballDist pt ball.start)
  | _ => none

/-- One step of the scan: keep the incumbent unless the new obstacle
yields a strictly closer intersection (`distance < closest_so_far`,
where an absent incumbent counts as infinitely far). -/
def tbStep (ball : Line) (acc : Option (Line × Coord × ℚ)) (l : Line) :
    Option (Line × Coord × ℚ) :=
  match hitOf ball l with
  | none => acc
  | some h =>
    match acc with
    | none => some h
    | some a => if h.2.2 < a.2.2 then some h else some a

/-- Model of `test_ball_with_scene` (lines 58-80): scan all obstacles in
order, keeping the first strictly-closest single-point intersection. -/
def test_ball_with_scene (ball : Line) (scene : List Line) :
    Option (Line × Coord × ℚ) :=
  scene.foldl (tbStep ball) none

/-- Model of `reflection` (lines 82-89): mirror the incoming point's
offset from the hit about the wall direction; both `try_normalize`
calls propagate `None`.  Note the returned ray starts exactly at the
intersection point — the small forward offset is applied by the caller
(line 157 of `single_simulation`). -/
def reflection (ball : Coord) (line : Line) (intersection : Coord) : Option Line :=
  let cLine := line.start - intersection
  let cBall := ball - intersection
  match tryNormalize cLine with
  | none => none
  | some n =>
    let x := n.scale (-(cBall.dot n))
    match tryNormalize (x.scale 2 + cBall) with
    | none => none
    | some rdir => some ⟨intersection, intersection + rdir.scale 100⟩

/-- The arena's edge count (`ARENA_EDGES`, line 35). -/
def ARENA_EDGES : ℕ := 5

/-- Capacity of the obstacle collection (`SceneLinesType = Vec<Line, 100>`). -/
def SCENE_CAP : ℕ := 100

/-- The `0.0001` threshold of `single_simulation`: both the trap
detection epsilon (line 134) and the forward offset (line 157). -/
def EPS : ℚ := 1 / 10000

/-- `heapless::Vec::push`: appends when below capacity, errs when full. -/
def pushHL (l : List Line) (x : Line) : Option (List Line) :=
  if l.length < SCENE_CAP then some (l ++ [x]) else none

/-- `heapless::Vec::is_full`: length has reached capacity (the list
model states `SCENE_CAP ≤ length`, which under the representation
invariant `length ≤ SCENE_CAP` of the Rust type is `len == capacity`). -/
def isFull (l : List Line) : Prop := SCENE_CAP ≤ l.length

instance (l : List Line) : Decidable (isFull l) := by unfold isFull; infer_instance

/-- Model of `simple_canvas::Canvas<f64>`: a row-major grid of cells. -/
structure Canvas where
  width : ℕ
  height : ℕ
  data : List ℚ
deriving DecidableEq, Repr

/-- The pixel coordinate of a rational canvas coordinate (lines
136-137): scale by the dimension, round, cast to `usize` (saturating at
zero) and clamp to `dim - 1`.  `f64::round` rounds halves away from
zero and the embedded rounding rounds halves up; they agree on all
non-negative values, and every negative value saturates to pixel 0
under both. -/
def pixCoord (dim : ℕ) (q : ℚ) : ℕ :=
  min (round (q * (dim : ℚ))).toNat (dim - 1)

/-- The terminal accumulation write of `single_simulation` (lines
136-139): map the collision point to a pixel and add the shader value
into the cell at row-major index `x + width * y`. -/
def trapWrite (c : Canvas) (pt : Coord) (v : ℚ) : Canvas :=
  let x := pixCoord c.width pt.x
  let y := pixCoord c.height pt.y
  let idx := x + c.width * y
  { c with data := c.data.set idx (c.data.getD idx 0 + v) }

/-- The scoring function type `ShaderFunc<T>` (line 110), at `T = ℚ`:
launch point, accumulated path length, bounce count. -/
def ShaderFunc : Type := Coord → ℚ → ℕ → ℚ

/-- The scoring function `main` installs (line 231): return the
accumulated path length. -/
def mainShader : ShaderFunc := fun _ pl _ => pl

/-- The mutable state of `single_simulation`'s bounce loop, plus two
ghost counters (`iters` counts loop iterations, `writes` counts shader
invocations / canvas writes); the counters instrument the embedding and
do not influence it. -/
structure SimState where
  canvas : Canvas
  obstacles : List Line
  ball : Line
  pathLength : ℚ
  bounces : ℕ
  iters : ℕ
  writes : ℕ
deriving DecidableEq, Repr

/-- The two `.unwrap()` calls inside the bounce loop, as explicit
faults: `pushFailed` models line 143 (`obstacles.push(..).unwrap()`),
`moveFailed` models line 157 (`..try_normalize().unwrap()`). -/
inductive SimFault where
  | pushFailed
  | moveFailed
deriving DecidableEq, Repr

/-- The bounce loop of `single_simulation` (lines 128-164), indexed by
fuel (`none` = fuel exhausted; `SIM_FUEL` is proved sufficient).  Each
iteration: find the nearest hit (`None` → break); accumulate distance
and bounce count; if the distance is below `EPS` or the collection is
full, write the accumulation event and break; otherwise push the
ball's own path as a new wall, reflect (a failed reflection writes the
accumulation event but — exactly as in the source — does not break),
move the ball forward by `EPS` along its direction, and loop. -/
def simLoopF (shader : ShaderFunc) (startPos : Coord) :
    ℕ → SimState → Option (Except SimFault SimState)
  | 0, _ => none
  | fuel + 1, s =>
    match test_ball_with_scene s.ball s.obstacles with
    | none => some (.ok { s with iters := s.iters + 1 })
    | some (line, colPoint, distance) =>
      let pl := s.pathLength + distance
      let nb := s.bounces + 1
      if distance < EPS ∨ isFull s.obstacles then
        some (.ok { s with
          canvas := trapWrite s.canvas colPoint (shader startPos pl nb),
          pathLength := pl, bounces := nb,
          iters := s.iters + 1, writes := s.writes + 1 })
      else
        match pushHL s.obstacles ⟨s.ball.start, colPoint⟩ with
        | none => some (.error .pushFailed)
        | some obstacles2 =>
          match reflection s.ball.start line colPoint with
          | none =>
            match tryNormalize (s.ball.endp - s.ball.start) with
            | none => some (.error .moveFailed)
            | some mv =>
              simLoopF shader startPos fuel
                { canvas := trapWrite s.canvas colPoint (shader startPos pl nb),
                  obstacles := obstacles2,
                  ball := ⟨s.ball.start + mv.scale EPS, s.ball.endp⟩,
                  pathLength := pl, bounces := nb,
                  iters := s.iters + 1, writes := s.writes + 1 }
          | some b =>
            match tryNormalize (b.endp - b.start) with
            | none => some (.error .moveFailed)
            | some mv =>
              simLoopF shader startPos fuel
                { canvas := s.canvas,
                  obstacles := obstacles2,
                  ball := ⟨b.start + mv.scale EPS, b.endp⟩,
                  pathLength := pl, bounces := nb,
                  iters := s.iters + 1, writes := s.writes }

/-- Fuel sufficient for the bounce loop from a collection of the given
length: every non-breaking iteration pushes one wall, so at most
`SCENE_CAP - length` pushes can happen before the capacity check forces
the trapped outcome on the following iteration. -/
def SIM_FUEL (obstacles : List Line) : ℕ := (SCENE_CAP - obstacles.length) + 1

/-- What `single_simulation` leaves behind: the canvas and obstacle
collection it mutated, plus the ghost counters of the run. -/
structure SimResult where
  canvas : Canvas
  obstacles : List Line
  iters : ℕ
  writes : ℕ
deriving DecidableEq, Repr

/-- Model of `single_simulation` (lines 112-168).  The two random draws
are the inputs `startPos` (line 120) and the unit direction `u`
(`angled_coord` of the drawn angle, line 122; the source scales it by
`10.0`, as here).  After the loop the collection is truncated back to
its length at entry (line 167). -/
def single_simulation (canvas : Canvas) (obstacles : List Line)
    (startPos u : Coord) (shader : ShaderFunc) :
    Option (Except SimFault SimResult) :=
  let cleanSceneSize := obstacles.length
  let ball : Line := ⟨startPos, startPos + u.scale 10⟩
  match simLoopF shader startPos (SIM_FUEL obstacles)
      ⟨canvas, obstacles, ball, 0, 0, 0, 0⟩ with
  | none => none
  | some (.error e) => some (.error e)
  | some (.ok s) =>
      some (.ok ⟨s.canvas, s.obstacles.take cleanSceneSize, s.iters, s.writes⟩)

/-- A sequence of `single_simulation` calls on one obstacle collection
instance (each entry provides the two random draws of one call), as a
worker performs them; used to state the truncate-to-baseline invariant
for every number of repeated calls. -/
def simSeq (shader : ShaderFunc) :
    List (Coord × Coord) → Canvas → List Line →
    Option (Except SimFault (Canvas × List Line))
  | [], c, o => some (.ok (c, o))
  | (sp, u) :: rest, c, o =>
    match single_simulation c o sp u shader with
    | none => none
    | some (.error e) => some (.error e)
    | some (.ok r) => simSeq shader rest r.canvas r.obstacles

/-- What one worker poll of the control channel can see
(`rx.recv_timeout(Duration::ZERO)`, lines 200-214): a control message,
nothing pending, or a disconnected channel (which panics). -/
inductive PollResult where
  | accumulate
  | stop
  | timeout
  | disconnected
deriving DecidableEq, Repr

/-- Cellwise in-place addition `*p_out += p_in` over
`zip(inp.iter(), out.iter_mut())` (lines 203-205): cells of `out`
beyond the zipped length keep their values. -/
def addInto (inp out : List ℚ) : List ℚ :=
  (List.zipWith (fun i o => o + i) inp out) ++ out.drop inp.length

/-- Outcome of a modelled `sim_thread` run over a finite script. -/
structure WorkerRun where
  privCanvas : Canvas
  shared : Canvas
  reports : ℕ
  stopped : Bool
  panicked : Bool
deriving DecidableEq, Repr

/-- Model of the loop of `sim_thread` (lines 193-215).  One script entry
per iteration: the batch of `NUMBER_OF_SIMS_PER_REPORT` simulations
adds a delta into the private canvas (`single_simulation` only ever
adds into cells, so a batch's total effect is a cellwise addition),
one progress report is sent, then the non-blocking poll of the control
channel is answered by the script.  `accumulate` merges the private
canvas into the shared one and continues; `stop` returns; `timeout`
continues; a disconnected channel panics.  An exhausted script leaves
the worker still running. -/
def sim_thread (priv shared : Canvas) (reports : ℕ) :
    List (List ℚ × PollResult) → WorkerRun
  | [] => ⟨priv, shared, reports, false, false⟩
  | (delta, poll) :: rest =>
    let priv2 : Canvas := { priv with data := addInto delta priv.data }
    match poll with
    | .accumulate =>
        sim_thread priv2 { shared with data := addInto priv2.data shared.data }
          (reports + 1) rest
    | .stop => ⟨priv2, shared, reports + 1, true, false⟩
    | .timeout => sim_thread priv2 shared (reports + 1) rest
    | .disconnected => ⟨priv2, shared, reports + 1, false, true⟩

/-- A run of timeout-only polls (the steady state while the coordinator
is still collecting progress), one batch delta per iteration. -/
def timeoutScript (ds : List (List ℚ)) : List (List ℚ × PollResult) :=
  ds.map (fun d => (d, PollResult.timeout))

/-- The private canvas after a list of batch deltas has been applied. -/
def batchFold (priv : Canvas) (ds : List (List ℚ)) : Canvas :=
  ds.foldl (fun c d => { c with data := addInto d c.data }) priv

/-- Whether a simulation outcome is the panic of the push `.unwrap()`
(line 143). -/
def isPushFault : Option (Except SimFault SimResult) → Bool
  | some (.error .pushFailed) => true
  | _ => false

/-- The vector `tryNormalize` returns when it succeeds: the input
divided by its magnitude. -/
def unitize (v : Coord) : Coord :=
  ⟨v.x / ratSqrt (normSq v), v.y / ratSqrt (normSq v)⟩

/-- The (unnormalized) reflected direction `reflection` computes at
line 87: `x * 2.0 + c_ball` with `x` the projection step of line 86. -/
def reflVec (ball : Coord) (line : Line) (intersection : Coord) : Coord :=
  let n := unitize (line.start - intersection)
  let cBall := ball - intersection
  (n.scale (-(cBall.dot n))).scale 2 + cBall

end Billiards

deriving instance DecidableEq for Except

namespace Billiards

/-! ## Arithmetic facts about the embedded square root and vectors -/

lemma isqrtAux_zero (f : ℕ) : isqrtAux f 0 = 0 := by cases f <;> rfl

lemma isqrtAux_pos : ∀ f n, 1 ≤ n → n ≤ f → 1 ≤ isqrtAux f n := by
  intro f
  induction f with
  | zero => intro n h1 h2; omega
  | succ f ih =>
    intro n h1 h2
    simp only [isqrtAux]
    split
    · omega
    · rename_i hn2
      split
      · omega
      · rename_i hsq
        by_cases h4 : n ≤ 3
        · have hq : n / 4 = 0 := by omega
          rw [hq, isqrtAux_zero] at hsq
          omega
        · have hq1 : 1 ≤ n / 4 := by omega
          have hq2 : n / 4 ≤ f := by omega
          have := ih (n / 4) hq1 hq2
          omega

lemma isqrt_pos {n : ℕ} (h : 1 ≤ n) : 1 ≤ isqrt n :=
  isqrtAux_pos (n + 1) n h (by omega)

lemma ratSqrt_zero : ratSqrt 0 = 0 := rfl

lemma ratSqrt_eq_zero_iff {q : ℚ} (hq : 0 ≤ q) : ratSqrt q = 0 ↔ q = 0 := by
  constructor
  · intro h
    by_contra hne
    have hpos : 0 < q := lt_of_le_of_ne hq (Ne.symm hne)
    have hnum : 0 < q.num := Rat.num_pos.mpr hpos
    have h1 : 1 ≤ isqrt q.num.toNat := isqrt_pos (by omega)
    have hden : 1 ≤ isqrt q.den := isqrt_pos q.den_pos
    rw [ratSqrt, Rat.mkRat_eq_zero (by omega)] at h
    omega
  · rintro rfl; rfl

lemma Coord.sub_def (a b : Coord) : a - b = ⟨a.x - b.x, a.y - b.y⟩ := rfl

lemma Coord.add_def (a b : Coord) : a + b = ⟨a.x + b.x, a.y + b.y⟩ := rfl

lemma Coord.zero_def : (0 : Coord) = ⟨0, 0⟩ := rfl

lemma normSq_nonneg (v : Coord) : 0 ≤ normSq v :=
  add_nonneg (mul_self_nonneg _) (mul_self_nonneg _)

lemma normSq_eq_zero_iff {v : Coord} : normSq v = 0 ↔ v = 0 := by
  unfold normSq
  constructor
  · intro h
    rcases (add_eq_zero_iff_of_nonneg (mul_self_nonneg _) (mul_self_nonneg _)).mp h
      with ⟨h1, h2⟩
    cases v
    simp only [Coord.zero_def, Coord.mk.injEq]
    exact ⟨mul_self_eq_zero.mp h1, mul_self_eq_zero.mp h2⟩
  · rintro rfl
    simp [Coord.zero_def]

lemma Coord.sub_eq_zero_iff {a b : Coord} : a - b = 0 ↔ a = b := by
  cases a; cases b
  simp [Coord.sub_def, Coord.zero_def, Coord.mk.injEq, sub_eq_zero]

lemma tryNormalize_eq_none_iff {v : Coord} : tryNormalize v = none ↔ v = 0 := by
  constructor
  · intro h
    simp only [tryNormalize] at h
    split at h
    · rename_i hm
      exact normSq_eq_zero_iff.mp ((ratSqrt_eq_zero_iff (normSq_nonneg v)).mp hm)
    · simp at h
  · rintro rfl
    unfold tryNormalize
    rw [if_pos]
    rw [(ratSqrt_eq_zero_iff (normSq_nonneg 0)), normSq_eq_zero_iff]

lemma tryNormalize_eq_some {v : Coord} (h : v ≠ 0) :
    tryNormalize v = some (unitize v) := by
  unfold tryNormalize unitize
  rw [if_neg]
  intro hm
  exact h (normSq_eq_zero_iff.mp ((ratSqrt_eq_zero_iff (normSq_nonneg v)).mp hm))


/-! ## The nearest-hit scan (`test_ball_with_scene`) -/

lemma tbStep_none_hit {ball : Line} {l : Line} (hl : hitOf ball l = none)
    (acc : Option (Line × Coord × ℚ)) : tbStep ball acc l = acc := by
  unfold tbStep
  rw [hl]

lemma tbStep_hit_none_acc {ball l : Line} {h : Line × Coord × ℚ}
    (hl : hitOf ball l = some h) : tbStep ball none l = some h := by
  unfold tbStep
  rw [hl]

lemma tbStep_hit_lt {ball l : Line} {h a : Line × Coord × ℚ}
    (hl : hitOf ball l = some h) (hc : h.2.2 < a.2.2) :
    tbStep ball (some a) l = some h := by
  unfold tbStep
  rw [hl]
  exact if_pos hc

lemma tbStep_hit_ge {ball l : Line} {h a : Line × Coord × ℚ}
    (hl : hitOf ball l = some h) (hc : ¬h.2.2 < a.2.2) :
    tbStep ball (some a) l = some a := by
  unfold tbStep
  rw [hl]
  exact if_neg hc

lemma tb_foldl_some_ne_none (ball : Line) :
    ∀ (scene : List Line) (a : Line × Coord × ℚ),
      scene.foldl (tbStep ball) (some a) ≠ none := by
  intro scene
  induction scene with
  | nil => intro a h; simp at h
  | cons l t ih =>
    intro a h
    rw [List.foldl_cons] at h
    cases hl : hitOf ball l with
    | none =>
      rw [tbStep_none_hit hl] at h
      exact ih a h
    | some hh =>
      by_cases hc : hh.2.2 < a.2.2
      · rw [tbStep_hit_lt hl hc] at h
        exact ih hh h
      · rw [tbStep_hit_ge hl hc] at h
        exact ih a h

lemma tb_foldl_none_iff (ball : Line) :
    ∀ (scene : List Line) (acc : Option (Line × Coord × ℚ)),
      scene.foldl (tbStep ball) acc = none ↔
        acc = none ∧ scene.filterMap (hitOf ball) = [] := by
  intro scene
  induction scene with
  | nil => intro acc; simp
  | cons l t ih =>
    intro acc
    rw [List.foldl_cons, List.filterMap_cons]
    cases hl : hitOf ball l with
    | none =>
      rw [tbStep_none_hit hl, ih]
    | some h =>
      apply iff_of_false
      · cases acc with
        | none =>
          rw [tbStep_hit_none_acc hl]
          exact tb_foldl_some_ne_none ball t h
        | some a =>
          by_cases hc : h.2.2 < a.2.2
          · rw [tbStep_hit_lt hl hc]
            exact tb_foldl_some_ne_none ball t h
          · rw [tbStep_hit_ge hl hc]
            exact tb_foldl_some_ne_none ball t a
      · intro ⟨_, hlist⟩
        simp at hlist

lemma tb_foldl_le_acc (ball : Line) :
    ∀ (scene : List Line) (a r : Line × Coord × ℚ),
      scene.foldl (tbStep ball) (some a) = some r → r.2.2 ≤ a.2.2 := by
  intro scene
  induction scene with
  | nil =>
    intro a r h
    simp only [List.foldl_nil, Option.some.injEq] at h
    rw [← h]
  | cons l t ih =>
    intro a r h
    rw [List.foldl_cons] at h
    cases hl : hitOf ball l with
    | none =>
      rw [tbStep_none_hit hl] at h
      exact ih a r h
    | some hh =>
      by_cases hc : hh.2.2 < a.2.2
      · rw [tbStep_hit_lt hl hc] at h
        exact le_trans (ih hh r h) (le_of_lt hc)
      · rw [tbStep_hit_ge hl hc] at h
        exact ih a r h

lemma tb_foldl_min (ball : Line) :
    ∀ (scene : List Line) (acc : Option (Line × Coord × ℚ)) (r : Line × Coord × ℚ),
      scene.foldl (tbStep ball) acc = some r →
        ∀ x ∈ scene.filterMap (hitOf ball), r.2.2 ≤ x.2.2 := by
  intro scene
  induction scene with
  | nil => intro acc r _ x hx; simp at hx
  | cons l t ih =>
    intro acc r h x hx
    rw [List.foldl_cons] at h
    rw [List.filterMap_cons] at hx
    cases hl : hitOf ball l with
    | none =>
      rw [hl] at hx
      rw [tbStep_none_hit hl] at h
      exact ih acc r h x hx
    | some hh =>
      rw [hl] at hx
      rcases List.mem_cons.mp hx with hxh | hxt
      · subst hxh
        cases acc with
        | none =>
          rw [tbStep_hit_none_acc hl] at h
          exact tb_foldl_le_acc ball t x r h
        | some a =>
          by_cases hc : x.2.2 < a.2.2
          · rw [tbStep_hit_lt hl hc] at h
            exact tb_foldl_le_acc ball t x r h
          · rw [tbStep_hit_ge hl hc] at h
            exact le_trans (tb_foldl_le_acc ball t a r h) (not_lt.mp hc)
      · exact ih (tbStep ball acc l) r h x hxt

lemma tb_foldl_mem (ball : Line) :
    ∀ (scene : List Line) (acc : Option (Line × Coord × ℚ)) (r : Line × Coord × ℚ),
      scene.foldl (tbStep ball) acc = some r →
        acc = some r ∨ r ∈ scene.filterMap (hitOf ball) := by
  intro scene
  induction scene with
  | nil => intro acc r h; left; simpa using h
  | cons l t ih =>
    intro acc r h
    rw [List.foldl_cons] at h
    cases hl : hitOf ball l with
    | none =>
      rw [tbStep_none_hit hl] at h
      rw [List.filterMap_cons_none hl]
      exact ih acc r h
    | some hh =>
      rw [List.filterMap_cons_some hl]
      rcases ih (tbStep ball acc l) r h with hacc | hmem
      · cases acc with
        | none =>
          rw [tbStep_hit_none_acc hl, Option.some.injEq] at hacc
          right
          rw [← hacc]
          exact List.mem_cons_self _ _
        | some a =>
          by_cases hc : hh.2.2 < a.2.2
          · rw [tbStep_hit_lt hl hc, Option.some.injEq] at hacc
            right
            rw [← hacc]
            exact List.mem_cons_self _ _
          · rw [tbStep_hit_ge hl hc] at hacc
            left
            exact hacc
      · right
        exact List.mem_cons_of_mem _ hmem

lemma tb_foldl_first (ball : Line) :
    ∀ (scene : List Line) (a r : Line × Coord × ℚ),
      scene.foldl (tbStep ball) (some a) = some r →
        r = a ∨ (r.2.2 < a.2.2 ∧ ∃ i : ℕ,
          (scene.filterMap (hitOf ball))[i]? = some r ∧
          ∀ j x, j < i → (scene.filterMap (hitOf ball))[j]? = some x →
            r.2.2 < x.2.2) := by
  intro scene
  induction scene with
  | nil =>
    intro a r h
    left
    simp only [List.foldl_nil, Option.some.injEq] at h
    exact h.symm
  | cons l t ih =>
    intro a r h
    rw [List.foldl_cons] at h
    cases hl : hitOf ball l with
    | none =>
      rw [tbStep_none_hit hl] at h
      rw [List.filterMap_cons_none hl]
      exact ih a r h
    | some hh =>
      rw [List.filterMap_cons_some hl]
      by_cases hc : hh.2.2 < a.2.2
      · rw [tbStep_hit_lt hl hc] at h
        rcases ih hh r h with rfl | ⟨hlt, i, hi, hfirst⟩
        · right
          refine ⟨hc, 0, by simp, ?_⟩
          intro j x hj
          omega
        · right
          refine ⟨lt_trans hlt hc, i + 1, by simpa using hi, ?_⟩
          intro j x hj hx
          cases j with
          | zero =>
            simp only [List.getElem?_cons_zero, Option.some.injEq] at hx
            rw [← hx]
            exact hlt
          | succ j =>
            rw [List.getElem?_cons_succ] at hx
            exact hfirst j x (by omega) hx
      · rw [tbStep_hit_ge hl hc] at h
        rcases ih a r h with rfl | ⟨hlt, i, hi, hfirst⟩
        · left; rfl
        · right
          refine ⟨hlt, i + 1, by simpa using hi, ?_⟩
          intro j x hj hx
          cases j with
          | zero =>
            simp only [List.getElem?_cons_zero, Option.some.injEq] at hx
            rw [← hx]
            exact lt_of_lt_of_le hlt (not_lt.mp hc)
          | succ j =>
            rw [List.getElem?_cons_succ] at hx
            exact hfirst j x (by omega) hx

lemma tb_foldl_first_none (ball : Line) :
    ∀ (scene : List Line) (r : Line × Coord × ℚ),
      scene.foldl (tbStep ball) none = some r →
        ∃ i : ℕ, (scene.filterMap (hitOf ball))[i]? = some r ∧
          ∀ j x, j < i → (scene.filterMap (hitOf ball))[j]? = some x →
            r.2.2 < x.2.2 := by
  intro scene
  induction scene with
  | nil => intro r h; simp at h
  | cons l t ih =>
    intro r h
    rw [List.foldl_cons] at h
    cases hl : hitOf ball l with
    | none =>
      rw [tbStep_none_hit hl] at h
      rw [List.filterMap_cons_none hl]
      exact ih r h
    | some hh =>
      rw [List.filterMap_cons_some hl]
      rw [tbStep_hit_none_acc hl] at h
      rcases tb_foldl_first ball t hh r h with rfl | ⟨hlt, i, hi, hfirst⟩
      · refine ⟨0, by simp, ?_⟩
        intro j x hj
        omega
      · refine ⟨i + 1, by simpa using hi, ?_⟩
        intro j x hj hx
        cases j with
        | zero =>
          simp only [List.getElem?_cons_zero, Option.some.injEq] at hx
          rw [← hx]
          exact hlt
        | succ j =>
          rw [List.getElem?_cons_succ] at hx
          exact hfirst j x (by omega) hx


/-! ## The bounce loop (`single_simulation`) -/

lemma pushHL_some {o : List Line} {x : Line} {o2 : List Line}
    (h : pushHL o x = some o2) : o2 = o ++ [x] ∧ o.length < SCENE_CAP := by
  unfold pushHL at h
  split at h
  · rename_i hlt
    exact ⟨(Option.some.injEq _ _).mp h.symm, hlt⟩
  · simp at h

lemma pushHL_full {o : List Line} {x : Line}
    (h : pushHL o x = none) : ¬o.length < SCENE_CAP := by
  unfold pushHL at h
  split at h
  · simp at h
  · assumption

lemma simLoopF_trapped (sh : ShaderFunc) (sp : Coord) (fuel : ℕ) (s : SimState)
    (l : Line) (p : Coord) (d : ℚ)
    (ht : test_ball_with_scene s.ball s.obstacles = some (l, p, d))
    (hc : d < EPS ∨ isFull s.obstacles) :
    simLoopF sh sp (fuel + 1) s = some (.ok { s with
      canvas := trapWrite s.canvas p (sh sp (s.pathLength + d) (s.bounces + 1)),
      pathLength := s.pathLength + d, bounces := s.bounces + 1,
      iters := s.iters + 1, writes := s.writes + 1 }) := by
  rw [simLoopF, ht]
  dsimp only
  rw [if_pos hc]

lemma simLoopF_ok_obstacles (sh : ShaderFunc) (sp : Coord) :
    ∀ (fuel : ℕ) (s s2 : SimState), simLoopF sh sp fuel s = some (.ok s2) →
      ∃ t, s2.obstacles = s.obstacles ++ t := by
  intro fuel
  induction fuel with
  | zero => intro s s2 h; simp [simLoopF] at h
  | succ f ih =>
    intro s s2 h
    rw [simLoopF] at h
    cases ht : test_ball_with_scene s.ball s.obstacles with
    | none =>
      rw [ht] at h
      dsimp only at h
      rw [Option.some.injEq, Except.ok.injEq] at h
      exact ⟨[], by rw [← h, List.append_nil]⟩
    | some val =>
      obtain ⟨l, p, d⟩ := val
      rw [ht] at h
      dsimp only at h
      split at h
      · rw [Option.some.injEq, Except.ok.injEq] at h
        exact ⟨[], by rw [← h, List.append_nil]⟩
      · cases hp : pushHL s.obstacles ⟨s.ball.start, p⟩ with
        | none => rw [hp] at h; simp at h
        | some o2 =>
          rw [hp] at h
          dsimp only at h
          obtain ⟨ho2, _⟩ := pushHL_some hp
          cases hr : reflection s.ball.start l p with
          | none =>
            rw [hr] at h
            dsimp only at h
            cases hm : tryNormalize (s.ball.endp - s.ball.start) with
            | none => rw [hm] at h; simp at h
            | some mv =>
              rw [hm] at h
              dsimp only at h
              obtain ⟨t, htt⟩ := ih _ _ h
              exact ⟨[⟨s.ball.start, p⟩] ++ t, by
                rw [htt]; dsimp only; rw [ho2, List.append_assoc]⟩
          | some b =>
            rw [hr] at h
            dsimp only at h
            cases hm : tryNormalize (b.endp - b.start) with
            | none => rw [hm] at h; simp at h
            | some mv =>
              rw [hm] at h
              dsimp only at h
              obtain ⟨t, htt⟩ := ih _ _ h
              exact ⟨[⟨s.ball.start, p⟩] ++ t, by
                rw [htt]; dsimp only; rw [ho2, List.append_assoc]⟩


lemma simLoopF_ok_iters (sh : ShaderFunc) (sp : Coord) :
    ∀ (fuel : ℕ) (s s2 : SimState), simLoopF sh sp fuel s = some (.ok s2) →
      s2.iters ≤ s.iters + (SCENE_CAP - s.obstacles.length) + 1 := by
  intro fuel
  induction fuel with
  | zero => intro s s2 h; simp [simLoopF] at h
  | succ f ih =>
    intro s s2 h
    rw [simLoopF] at h
    cases ht : test_ball_with_scene s.ball s.obstacles with
    | none =>
      rw [ht] at h
      dsimp only at h
      rw [Option.some.injEq, Except.ok.injEq] at h
      rw [← h]
      dsimp only
      omega
    | some val =>
      obtain ⟨l, p, d⟩ := val
      rw [ht] at h
      dsimp only at h
      split at h
      · rw [Option.some.injEq, Except.ok.injEq] at h
        rw [← h]
        dsimp only
        omega
      · cases hp : pushHL s.obstacles ⟨s.ball.start, p⟩ with
        | none => rw [hp] at h; simp at h
        | some o2 =>
          rw [hp] at h
          dsimp only at h
          obtain ⟨ho2, hlen⟩ := pushHL_some hp
          have hlen2 : o2.length = s.obstacles.length + 1 := by
            rw [ho2, List.length_append, List.length_cons, List.length_nil]
          cases hr : reflection s.ball.start l p with
          | none =>
            rw [hr] at h
            dsimp only at h
            cases hm : tryNormalize (s.ball.endp - s.ball.start) with
            | none => rw [hm] at h; simp at h
            | some mv =>
              rw [hm] at h
              dsimp only at h
              have := ih _ _ h
              dsimp only at this
              omega
          | some b =>
            rw [hr] at h
            dsimp only at h
            cases hm : tryNormalize (b.endp - b.start) with
            | none => rw [hm] at h; simp at h
            | some mv =>
              rw [hm] at h
              dsimp only at h
              have := ih _ _ h
              dsimp only at this
              omega

lemma simLoopF_isSome (sh : ShaderFunc) (sp : Coord) :
    ∀ (fuel : ℕ) (s : SimState), SCENE_CAP - s.obstacles.length < fuel →
      (simLoopF sh sp fuel s).isSome = true := by
  intro fuel
  induction fuel with
  | zero => intro s h; omega
  | succ f ih =>
    intro s hfuel
    rw [simLoopF]
    cases ht : test_ball_with_scene s.ball s.obstacles with
    | none => rfl
    | some val =>
      obtain ⟨l, p, d⟩ := val
      dsimp only
      split
      · rfl
      · rename_i hcond
        cases hp : pushHL s.obstacles ⟨s.ball.start, p⟩ with
        | none => rfl
        | some o2 =>
          dsimp only
          obtain ⟨ho2, hlen⟩ := pushHL_some hp
          have hlen2 : o2.length = s.obstacles.length + 1 := by
            rw [ho2, List.length_append, List.length_cons, List.length_nil]
          have hnotfull : ¬isFull s.obstacles := fun hf => hcond (Or.inr hf)
          have hlt : s.obstacles.length < SCENE_CAP := by
            unfold isFull at hnotfull
            omega
          cases hr : reflection s.ball.start l p with
          | none =>
            dsimp only
            cases hm : tryNormalize (s.ball.endp - s.ball.start) with
            | none => rfl
            | some mv =>
              dsimp only
              apply ih
              dsimp only
              omega
          | some b =>
            dsimp only
            cases hm : tryNormalize (b.endp - b.start) with
            | none => rfl
            | some mv =>
              dsimp only
              apply ih
              dsimp only
              omega

lemma simLoopF_no_pushFault (sh : ShaderFunc) (sp : Coord) :
    ∀ (fuel : ℕ) (s : SimState),
      simLoopF sh sp fuel s ≠ some (.error .pushFailed) := by
  intro fuel
  induction fuel with
  | zero => intro s h; simp [simLoopF] at h
  | succ f ih =>
    intro s h
    rw [simLoopF] at h
    cases ht : test_ball_with_scene s.ball s.obstacles with
    | none => rw [ht] at h; simp at h
    | some val =>
      obtain ⟨l, p, d⟩ := val
      rw [ht] at h
      dsimp only at h
      split at h
      · simp at h
      · rename_i hcond
        cases hp : pushHL s.obstacles ⟨s.ball.start, p⟩ with
        | none =>
          have hnotfull : ¬isFull s.obstacles := fun hf => hcond (Or.inr hf)
          have := pushHL_full hp
          unfold isFull at hnotfull
          omega
        | some o2 =>
          rw [hp] at h
          dsimp only at h
          cases hr : reflection s.ball.start l p with
          | none =>
            rw [hr] at h
            dsimp only at h
            cases hm : tryNormalize (s.ball.endp - s.ball.start) with
            | none => rw [hm] at h; simp at h
            | some mv =>
              rw [hm] at h
              dsimp only at h
              exact ih _ h
          | some b =>
            rw [hr] at h
            dsimp only at h
            cases hm : tryNormalize (b.endp - b.start) with
            | none => rw [hm] at h; simp at h
            | some mv =>
              rw [hm] at h
              dsimp only at h
              exact ih _ h

lemma single_simulation_ok_obstacles {c : Canvas} {o : List Line} {sp u : Coord}
    {sh : ShaderFunc} {r : SimResult}
    (h : single_simulation c o sp u sh = some (.ok r)) : r.obstacles = o := by
  unfold single_simulation at h
  dsimp only at h
  cases hs : simLoopF sh sp (SIM_FUEL o) ⟨c, o, ⟨sp, sp + u.scale 10⟩, 0, 0, 0, 0⟩ with
  | none => rw [hs] at h; simp at h
  | some res =>
    cases res with
    | error e => rw [hs] at h; simp at h
    | ok s =>
      rw [hs] at h
      dsimp only at h
      rw [Option.some.injEq, Except.ok.injEq] at h
      obtain ⟨t, htt⟩ := simLoopF_ok_obstacles sh sp _ _ _ hs
      dsimp only at htt
      rw [← h]
      dsimp only
      rw [htt, List.take_left]

lemma single_simulation_isSome (c : Canvas) (o : List Line) (sp u : Coord)
    (sh : ShaderFunc) : (single_simulation c o sp u sh).isSome = true := by
  unfold single_simulation
  dsimp only
  cases hs : simLoopF sh sp (SIM_FUEL o) ⟨c, o, ⟨sp, sp + u.scale 10⟩, 0, 0, 0, 0⟩ with
  | none =>
    have := simLoopF_isSome sh sp (SIM_FUEL o)
      ⟨c, o, ⟨sp, sp + u.scale 10⟩, 0, 0, 0, 0⟩ (by unfold SIM_FUEL; dsimp only; omega)
    rw [hs] at this
    simp at this
  | some res => cases res with
    | error e => rfl
    | ok s => rfl


lemma single_simulation_ok_iters {c : Canvas} {o : List Line} {sp u : Coord}
    {sh : ShaderFunc} {r : SimResult}
    (h : single_simulation c o sp u sh = some (.ok r)) :
    r.iters ≤ (SCENE_CAP - o.length) + 1 := by
  unfold single_simulation at h
  dsimp only at h
  cases hs : simLoopF sh sp (SIM_FUEL o) ⟨c, o, ⟨sp, sp + u.scale 10⟩, 0, 0, 0, 0⟩ with
  | none => rw [hs] at h; simp at h
  | some res =>
    cases res with
    | error e => rw [hs] at h; simp at h
    | ok s =>
      rw [hs] at h
      dsimp only at h
      rw [Option.some.injEq, Except.ok.injEq] at h
      have := simLoopF_ok_iters sh sp _ _ _ hs
      dsimp only at this
      rw [← h]
      dsimp only
      omega

lemma single_simulation_no_pushFault (c : Canvas) (o : List Line) (sp u : Coord)
    (sh : ShaderFunc) : isPushFault (single_simulation c o sp u sh) = false := by
  unfold single_simulation
  dsimp only
  cases hs : simLoopF sh sp (SIM_FUEL o) ⟨c, o, ⟨sp, sp + u.scale 10⟩, 0, 0, 0, 0⟩ with
  | none => rfl
  | some res =>
    cases res with
    | error e =>
      cases e with
      | pushFailed => exact absurd hs (simLoopF_no_pushFault sh sp _ _)
      | moveFailed => rfl
    | ok s => rfl

lemma simSeq_ok_obstacles (sh : ShaderFunc) :
    ∀ (runs : List (Coord × Coord)) (c : Canvas) (o : List Line)
      (c2 : Canvas) (o2 : List Line),
      simSeq sh runs c o = some (.ok (c2, o2)) → o2 = o := by
  intro runs
  induction runs with
  | nil =>
    intro c o c2 o2 h
    unfold simSeq at h
    rw [Option.some.injEq, Except.ok.injEq, Prod.mk.injEq] at h
    exact h.2.symm
  | cons run rest ih =>
    intro c o c2 o2 h
    obtain ⟨sp, u⟩ := run
    unfold simSeq at h
    cases hss : single_simulation c o sp u sh with
    | none => rw [hss] at h; simp at h
    | some res =>
      cases res with
      | error e => rw [hss] at h; simp at h
      | ok r =>
        rw [hss] at h
        dsimp only at h
        rw [ih _ _ _ _ h]
        exact single_simulation_ok_obstacles hss


/-! ## The terminal write and its pixel mapping -/

lemma pixCoord_le (dim : ℕ) (q : ℚ) : pixCoord dim q ≤ dim - 1 :=
  min_le_right _ _

lemma pixIndex_lt {w h : ℕ} (hw : 0 < w) (hh : 0 < h) (qx qy : ℚ) :
    pixCoord w qx + w * pixCoord h qy < w * h := by
  have hx : pixCoord w qx ≤ w - 1 := pixCoord_le w qx
  have hy : pixCoord h qy ≤ h - 1 := pixCoord_le h qy
  have h1 : w * pixCoord h qy ≤ w * (h - 1) := Nat.mul_le_mul_left w hy
  have h2 : w * (h - 1) + w = w * h := by
    rw [← Nat.mul_succ]
    congr 1
    omega
  omega

lemma trapWrite_cell (c : Canvas) (pt : Coord) (v : ℚ) :
    let idx := pixCoord c.width pt.x + c.width * pixCoord c.height pt.y
    (idx < c.data.length →
      (trapWrite c pt v).data.getD idx 0 = c.data.getD idx 0 + v) ∧
    (∀ j, j ≠ idx → (trapWrite c pt v).data.getD j 0 = c.data.getD j 0) ∧
    (trapWrite c pt v).width = c.width ∧ (trapWrite c pt v).height = c.height ∧
    (trapWrite c pt v).data.length = c.data.length := by
  intro idx
  refine ⟨?_, ?_, rfl, rfl, by unfold trapWrite; exact List.length_set ..⟩
  · intro hlt
    unfold trapWrite
    dsimp only
    rw [List.getD_eq_getElem?_getD, List.getElem?_set_eq_of_lt _ hlt]
    rw [List.getD_eq_getElem?_getD]
    rfl
  · intro j hj
    unfold trapWrite
    dsimp only
    rw [List.getD_eq_getElem?_getD, List.getElem?_set_ne (fun e => hj e.symm),
      ← List.getD_eq_getElem?_getD]

/-! ## The worker loop (`sim_thread`) and the merge step -/

lemma addInto_getD :
    ∀ (inp out : List ℚ) (i : ℕ), i < inp.length → i < out.length →
      (addInto inp out).getD i 0 = out.getD i 0 + inp.getD i 0 := by
  intro inp
  induction inp with
  | nil => intro out i h1 _; simp at h1
  | cons a inp ih =>
    intro out i h1 h2
    cases out with
    | nil => simp at h2
    | cons b out =>
      cases i with
      | zero => rfl
      | succ i =>
        have h1' : i < inp.length := by simpa using h1
        have h2' : i < out.length := by simpa using h2
        have := ih out i h1' h2'
        unfold addInto at this ⊢
        simpa using this

lemma addInto_length :
    ∀ (inp out : List ℚ), (addInto inp out).length = out.length := by
  intro inp out
  unfold addInto
  rw [List.length_append, List.length_zipWith, List.length_drop]
  omega

lemma sim_thread_accumulate (priv shared : Canvas) (n : ℕ) (d : List ℚ)
    (rest : List (List ℚ × PollResult)) :
    sim_thread priv shared n ((d, PollResult.accumulate) :: rest) =
      sim_thread { priv with data := addInto d priv.data }
        { shared with data := addInto (addInto d priv.data) shared.data }
        (n + 1) rest := rfl

lemma sim_thread_stop (priv shared : Canvas) (n : ℕ) (d : List ℚ)
    (rest : List (List ℚ × PollResult)) :
    sim_thread priv shared n ((d, PollResult.stop) :: rest) =
      ⟨{ priv with data := addInto d priv.data }, shared, n + 1, true, false⟩ := rfl

lemma sim_thread_timeout_run (priv shared : Canvas) (n : ℕ) :
    ∀ (ds : List (List ℚ)) (rest : List (List ℚ × PollResult)),
      sim_thread priv shared n (timeoutScript ds ++ rest) =
        sim_thread (batchFold priv ds) shared (n + ds.length) rest := by
  intro ds
  induction ds generalizing priv n with
  | nil => intro rest; rfl
  | cons d ds ih =>
    intro rest
    unfold timeoutScript at ih ⊢
    rw [List.map_cons, List.cons_append]
    show sim_thread { priv with data := addInto d priv.data } shared (n + 1) _ = _
    rw [ih]
    unfold batchFold
    rw [List.foldl_cons]
    congr 1
    rw [List.length_cons]
    omega


/-! ## Unfolding `reflection` -/

lemma reflection_of_eq (b : Coord) (l : Line) (i : Coord) (hv : l.start - i = 0) :
    reflection b l i = none := by
  unfold reflection
  dsimp only
  rw [hv, tryNormalize_eq_none_iff.mpr rfl]

lemma reflection_of_ne (b : Coord) (l : Line) (i : Coord) (hv : l.start - i ≠ 0) :
    reflection b l i =
      match tryNormalize (reflVec b l i) with
      | none => none
      | some rd => some ⟨i, i + rd.scale 100⟩ := by
  unfold reflection
  dsimp only
  rw [tryNormalize_eq_some hv]
  rfl


/-! ## Claim theorems -/

/-- C3: every call of `single_simulation` leaves the obstacle collection
at exactly its pre-call length with its first `ARENA_EDGES` entries (and
in fact all entries) unchanged, and the same holds across every sequence
of repeated calls on the same collection instance (`simSeq`). -/
theorem single_simulation_truncate_invariant (sh : ShaderFunc) (c : Canvas)
    (o : List Line) (sp u : Coord) (r : SimResult)
    (runs : List (Coord × Coord)) (c0 c2 : Canvas) (o2 : List Line)
    (h1 : single_simulation c o sp u sh = some (.ok r))
    (h2 : simSeq sh runs c0 o = some (.ok (c2, o2))) :
    r.obstacles.length = o.length ∧
    r.obstacles.take ARENA_EDGES = o.take ARENA_EDGES ∧
    r.obstacles = o ∧ o2 = o := by
  have hr := single_simulation_ok_obstacles h1
  exact ⟨by rw [hr], by rw [hr], hr, simSeq_ok_obstacles sh runs c0 o c2 o2 h2⟩

/-- C4: the bounce loop always terminates: the canonical fuel
`SIM_FUEL` (capacity minus current length, plus one) is never
exhausted, the loop runs at most `SCENE_CAP - length + 1` iterations,
and from a full collection a hit forces the trapped outcome (one final
write) on that very iteration. -/
theorem single_simulation_termination_bound (sh : ShaderFunc) (sp : Coord)
    (c : Canvas) (o : List Line) (u : Coord) :
    (single_simulation c o sp u sh).isSome = true ∧
    (∀ r, single_simulation c o sp u sh = some (.ok r) →
      r.iters ≤ (SCENE_CAP - o.length) + 1) ∧
    (∀ (fuel : ℕ) (s : SimState) (l : Line) (p : Coord) (d : ℚ),
      isFull s.obstacles →
      test_ball_with_scene s.ball s.obstacles = some (l, p, d) →
      simLoopF sh sp (fuel + 1) s = some (.ok { s with
        canvas := trapWrite s.canvas p (sh sp (s.pathLength + d) (s.bounces + 1)),
        pathLength := s.pathLength + d, bounces := s.bounces + 1,
        iters := s.iters + 1, writes := s.writes + 1 })) :=
  ⟨single_simulation_isSome c o sp u sh,
   fun _ h => single_simulation_ok_iters h,
   fun fuel s l p d hfull ht => simLoopF_trapped sh sp fuel s l p d ht (Or.inr hfull)⟩

/-- C5 (amended): `reflection` returns a ray that starts exactly at the
hit point (the forward offset against re-intersection is applied by the
caller, line 157) and extends `100` times the normalized reflected
direction; it returns `none` exactly when normalization degenerates:
the wall's start coincides with the hit point (`c_line` is the zero
vector), or the reflected vector is zero. -/
theorem reflection_characterization (b : Coord) (l : Line) (i : Coord) :
    (∀ r, reflection b l i = some r → r.start = i ∧
      ∃ rd, tryNormalize (reflVec b l i) = some rd ∧ r.endp = i + rd.scale 100) ∧
    (reflection b l i = none ↔ l.start = i ∨ reflVec b l i = 0) := by
  by_cases hv : l.start - i = 0
  · rw [reflection_of_eq b l i hv]
    refine ⟨fun r hr => by simp at hr, ?_⟩
    simp only [true_iff]
    left
    exact Coord.sub_eq_zero_iff.mp hv
  · rw [reflection_of_ne b l i hv]
    cases hrd : tryNormalize (reflVec b l i) with
    | none =>
      refine ⟨fun r hr => by simp at hr, ?_⟩
      simp only [true_iff]
      right
      exact tryNormalize_eq_none_iff.mp hrd
    | some rd =>
      constructor
      · intro r hr
        rw [Option.some.injEq] at hr
        exact ⟨by rw [← hr], rd, rfl, by rw [← hr]⟩
      · refine iff_of_false (by simp) ?_
        intro hor
        rcases hor with hli | hrv
        · exact hv (Coord.sub_eq_zero_iff.mpr hli)
        · rw [tryNormalize_eq_none_iff.mpr hrv] at hrd
          simp at hrd

/-- C6: `test_ball_with_scene` returns `none` exactly when no obstacle
yields a single-point intersection with the ray; otherwise it returns a
hit that occurs among the single-point hits, whose distance to the
ray's start is minimal, and that is the first hit in scan order to
attain that distance (ties are won by the first-encountered obstacle). -/
theorem test_ball_with_scene_first_closest (ball : Line) (scene : List Line) :
    (test_ball_with_scene ball scene = none ↔
      scene.filterMap (hitOf ball) = []) ∧
    (∀ l p d, test_ball_with_scene ball scene = some (l, p, d) →
      (l, p, d) ∈ scene.filterMap (hitOf ball) ∧
      (∀ x ∈ scene.filterMap (hitOf ball), d ≤ x.2.2) ∧
      ∃ i : ℕ, (scene.filterMap (hitOf ball))[i]? = some (l, p, d) ∧
        ∀ j x, j < i → (scene.filterMap (hitOf ball))[j]? = some x →
          d < x.2.2) := by
  constructor
  · unfold test_ball_with_scene
    rw [tb_foldl_none_iff]
    simp
  · intro l p d h
    unfold test_ball_with_scene at h
    refine ⟨?_, ?_, ?_⟩
    · rcases tb_foldl_mem ball scene none _ h with hacc | hmem
      · simp at hacc
      · exact hmem
    · intro x hx
      exact tb_foldl_min ball scene none _ h x hx
    · exact tb_foldl_first_none ball scene _ h

/-- C7: the trapped-outcome write maps the hit point to pixel
coordinates by scaling, rounding and clamping into `[0, dim-1]`, and
adds (never overwrites) the scoring value into the row-major cell
`x + width * y`, which is always in bounds; and the trapped branch of
the bounce loop performs exactly this write. -/
theorem trapped_write_bounds_additive (c : Canvas) (pt : Coord) (v : ℚ)
    (hw : 0 < c.width) (hh : 0 < c.height)
    (hd : c.data.length = c.width * c.height) :
    pixCoord c.width pt.x ≤ c.width - 1 ∧
    pixCoord c.height pt.y ≤ c.height - 1 ∧
    pixCoord c.width pt.x + c.width * pixCoord c.height pt.y <
      c.width * c.height ∧
    (trapWrite c pt v).data.getD
        (pixCoord c.width pt.x + c.width * pixCoord c.height pt.y) 0 =
      c.data.getD
        (pixCoord c.width pt.x + c.width * pixCoord c.height pt.y) 0 + v ∧
    (∀ j, j ≠ pixCoord c.width pt.x + c.width * pixCoord c.height pt.y →
      (trapWrite c pt v).data.getD j 0 = c.data.getD j 0) ∧
    (∀ (sh : ShaderFunc) (sp : Coord) (fuel : ℕ) (s : SimState)
        (l : Line) (d : ℚ),
      test_ball_with_scene s.ball s.obstacles = some (l, pt, d) →
      d < EPS ∨ isFull s.obstacles →
      simLoopF sh sp (fuel + 1) s = some (.ok { s with
        canvas := trapWrite s.canvas pt (sh sp (s.pathLength + d) (s.bounces + 1)),
        pathLength := s.pathLength + d, bounces := s.bounces + 1,
        iters := s.iters + 1, writes := s.writes + 1 })) := by
  obtain ⟨hcell, hother, _, _, _⟩ := trapWrite_cell c pt v
  refine ⟨pixCoord_le _ _, pixCoord_le _ _, pixIndex_lt hw hh pt.x pt.y, ?_, hother, ?_⟩
  · exact hcell (by rw [hd]; exact pixIndex_lt hw hh pt.x pt.y)
  · intro sh sp fuel s l d ht hc
    exact simLoopF_trapped sh sp fuel s l pt d ht hc

/-- C9: on receiving the Accumulate instruction the worker adds every
cell of its private canvas into the corresponding cell of the shared
canvas (the shared cell becomes old value plus private value), keeps
its private canvas unchanged (the very same private canvas is carried
into the continuation — it is not cleared), and continues its batch
loop rather than terminating. -/
theorem accumulate_merges_and_continues (priv shared : Canvas) (n : ℕ)
    (d : List ℚ) (rest : List (List ℚ × PollResult)) :
    sim_thread priv shared n ((d, PollResult.accumulate) :: rest) =
      sim_thread { priv with data := addInto d priv.data }
        { shared with data := addInto (addInto d priv.data) shared.data }
        (n + 1) rest ∧
    (∀ i, i < (addInto d priv.data).length → i < shared.data.length →
      (addInto (addInto d priv.data) shared.data).getD i 0 =
        shared.data.getD i 0 + (addInto d priv.data).getD i 0) ∧
    (sim_thread priv shared n [(d, PollResult.accumulate)]).stopped = false ∧
    (sim_thread priv shared n [(d, PollResult.accumulate)]).panicked = false :=
  ⟨sim_thread_accumulate priv shared n d rest,
   fun i h1 h2 => addInto_getD _ _ i h1 h2, rfl, rfl⟩

/-- C10: the `.unwrap()` on the wall push (line 143) can never panic:
the push happens only on the branch where the capacity check just
failed, so it always succeeds — no run of the bounce loop, and hence no
call of `single_simulation`, produces the push fault. -/
theorem push_unwrap_never_panics (c : Canvas) (o : List Line) (sp u : Coord)
    (sh : ShaderFunc) :
    isPushFault (single_simulation c o sp u sh) = false ∧
    (∀ (fuel : ℕ) (s : SimState),
      simLoopF sh sp fuel s ≠ some (.error .pushFailed)) :=
  ⟨single_simulation_no_pushFault c o sp u sh,
   fun fuel s => simLoopF_no_pushFault sh sp fuel s⟩

/-- C2 (amended): over a whole run in which the coordinator's
Accumulate arrives after `ds.length` quiet polls and is immediately
followed by Stop, the shared canvas receives exactly one merge, namely
of every batch completed up to and including the batch of the
Accumulate iteration; the one further batch the worker completes
between Accumulate and Stop (`dS`) ends up in the private canvas only
and is never merged. -/
theorem sim_thread_single_merge_drops_last_batch (priv shared : Canvas)
    (n : ℕ) (ds : List (List ℚ)) (dA dS : List ℚ) :
    sim_thread priv shared n
        (timeoutScript ds ++ [(dA, PollResult.accumulate), (dS, PollResult.stop)]) =
      ⟨{ batchFold priv ds with
          data := addInto dS (addInto dA (batchFold priv ds).data) },
       { shared with data := addInto (addInto dA (batchFold priv ds).data) shared.data },
       n + ds.length + 2, true, false⟩ := by
  rw [sim_thread_timeout_run, sim_thread_accumulate, sim_thread_stop]


/-! ## Concrete evaluations

The Batteries rational arithmetic is `@[irreducible]` by default; the
kernel evaluation of concrete runs of the embedded engine needs it
unfolded, so the default reducibility of the four arithmetic operations
is restored here (this affects elaboration transparency only — proofs
still go through the kernel unchanged). -/

set_option allowUnsafeReducibility true in
attribute [semireducible] Rat.add Rat.mul Rat.inv Rat.sub

/-- C1 (exhibit of the code bug at lines 145-151): a concrete trapped
trajectory whose reflection fails invokes the scoring function twice.
The launch ray from `(0,0)` towards `(10,0)` hits the wall from
`(3/20000, 0)` to `(3/20000, 1)` exactly at the wall's start point, so
`reflection` returns `none` (`c_line` is the zero vector).  The
reflection-failure arm writes the accumulation event but — unlike the
trapped arm at lines 134-141 — does not `break`, so the loop continues
and the next iteration hits again at distance `1/20000 < 0.0001` and
writes a second accumulation event before breaking: the run below ends
with `writes = 2` (two scoring invocations and two additive canvas
writes) for one completed trajectory, where the specification demands
exactly one. -/
theorem reflection_failure_double_write :
    test_ball_with_scene ⟨⟨0, 0⟩, ⟨10, 0⟩⟩ [⟨⟨3/20000, 0⟩, ⟨3/20000, 1⟩⟩] =
      some (⟨⟨3/20000, 0⟩, ⟨3/20000, 1⟩⟩, ⟨3/20000, 0⟩, 3/20000) ∧
    reflection ⟨0, 0⟩ ⟨⟨3/20000, 0⟩, ⟨3/20000, 1⟩⟩ ⟨3/20000, 0⟩ = none ∧
    single_simulation ⟨1, 1, [0]⟩ [⟨⟨3/20000, 0⟩, ⟨3/20000, 1⟩⟩] ⟨0, 0⟩ ⟨1, 0⟩
        mainShader =
      some (.ok ⟨⟨1, 1, [7/20000]⟩, [⟨⟨3/20000, 0⟩, ⟨3/20000, 1⟩⟩], 2, 2⟩) :=
  ⟨by decide, by decide, by decide⟩

/-- C2 (counterexample): a worker that receives Accumulate and then
Stop completes two batches, each adding `1` to its single private cell
(the private canvas ends at `2`), yet the shared canvas receives only
`1`: the batch completed between the Accumulate poll and the Stop poll
is never merged, so not every completed batch's contribution reaches
the shared buffer. -/
theorem sim_thread_drops_final_batch :
    sim_thread ⟨1, 1, [0]⟩ ⟨1, 1, [0]⟩ 0
        [([1], PollResult.accumulate), ([1], PollResult.stop)] =
      ⟨⟨1, 1, [2]⟩, ⟨1, 1, [1]⟩, 2, true, false⟩ ∧
    (1 : ℚ) + 1 ≠ 1 :=
  ⟨by decide, by decide⟩

/-- C5 (counterexample): `reflection` of the incoming point `(0,1)`
about the wall from `(1,0)` to `(-1,0)` at the hit point `(0,0)`
returns the segment from exactly `(0,0)` to `(0,100)` — its start is
the hit point itself, not offset from it (the offset is applied by the
caller at line 157); and a degenerate zero-length wall (from `(1,0)`
to `(1,0)`) still yields a reflection rather than `none`. -/
theorem reflection_no_offset_counterexample :
    reflection ⟨0, 1⟩ ⟨⟨1, 0⟩, ⟨-1, 0⟩⟩ ⟨0, 0⟩ = some ⟨⟨0, 0⟩, ⟨0, 100⟩⟩ ∧
    (Line.mk ⟨0, 0⟩ ⟨0, 100⟩).start = (⟨0, 0⟩ : Coord) ∧
    reflection ⟨0, 1⟩ ⟨⟨1, 0⟩, ⟨1, 0⟩⟩ ⟨0, 0⟩ = some ⟨⟨0, 0⟩, ⟨0, 100⟩⟩ :=
  ⟨by decide, rfl, by decide⟩

/-- C3 (witness): the truncate-to-baseline invariant at a concrete
call: one simulation on the empty collection (the launch escapes at
once) and the empty sequence of repeated calls. -/
theorem single_simulation_truncate_invariant_witness :
    (SimResult.mk ⟨1, 1, [0]⟩ [] 1 0).obstacles.length = ([] : List Line).length ∧
    (SimResult.mk ⟨1, 1, [0]⟩ [] 1 0).obstacles.take ARENA_EDGES =
      ([] : List Line).take ARENA_EDGES ∧
    (SimResult.mk ⟨1, 1, [0]⟩ [] 1 0).obstacles = ([] : List Line) ∧
    ([] : List Line) = ([] : List Line) :=
  single_simulation_truncate_invariant mainShader ⟨1, 1, [0]⟩ [] ⟨0, 0⟩ ⟨1, 0⟩
    ⟨⟨1, 1, [0]⟩, [], 1, 0⟩ [] ⟨1, 1, [0]⟩ ⟨1, 1, [0]⟩ []
    (by decide) (by decide)

/-- C7 (witness): the trapped write on a concrete one-pixel canvas:
the hit point `(0,0)` maps to pixel `(0,0)`, the index is in bounds and
the cell is increased by the scoring value `5`. -/
theorem trapped_write_bounds_additive_witness :
    pixCoord 1 (0 : ℚ) ≤ 1 - 1 ∧
    pixCoord 1 (0 : ℚ) ≤ 1 - 1 ∧
    pixCoord 1 (0 : ℚ) + 1 * pixCoord 1 (0 : ℚ) < 1 * 1 ∧
    (trapWrite ⟨1, 1, [0]⟩ ⟨0, 0⟩ 5).data.getD
        (pixCoord 1 (0 : ℚ) + 1 * pixCoord 1 (0 : ℚ)) 0 =
      ([0] : List ℚ).getD (pixCoord 1 (0 : ℚ) + 1 * pixCoord 1 (0 : ℚ)) 0 + 5 ∧
    (∀ j, j ≠ pixCoord 1 (0 : ℚ) + 1 * pixCoord 1 (0 : ℚ) →
      (trapWrite ⟨1, 1, [0]⟩ ⟨0, 0⟩ 5).data.getD j 0 = ([0] : List ℚ).getD j 0) ∧
    (∀ (sh : ShaderFunc) (sp : Coord) (fuel : ℕ) (s : SimState)
        (l : Line) (d : ℚ),
      test_ball_with_scene s.ball s.obstacles = some (l, ⟨0, 0⟩, d) →
      d < EPS ∨ isFull s.obstacles →
      simLoopF sh sp (fuel + 1) s = some (.ok { s with
        canvas := trapWrite s.canvas ⟨0, 0⟩ (sh sp (s.pathLength + d) (s.bounces + 1)),
        pathLength := s.pathLength + d, bounces := s.bounces + 1,
        iters := s.iters + 1, writes := s.writes + 1 })) :=
  trapped_write_bounds_additive ⟨1, 1, [0]⟩ ⟨0, 0⟩ 5
    (by decide) (by decide) (by decide)

end Billiards
